import Mathlib

/-!
Shallow embedding of the construction-chatbot web frontend, together with
theorems checking the natural-language specification against the code.

Conventions used throughout:
* JavaScript numbers are modelled as exact rationals (ℚ).
* A JavaScript value that may be `null`/`undefined` is modelled as `Option`.
* A `fetch` call or other external operation is modelled by an explicit
  outcome value passed to the handler: the handler itself is the code under
  verification, the outcome is the environment.
* React `useState` setters are modelled by explicit state records: a handler
  is a function from the previous state (and its inputs) to the next state.
-/

namespace ConstructionChatbot

/-! ## Upload dialog (src/app/oauth/procore/callback/page.tsx, dashboard part)

`handleFileSelect` and `handleDrop` receive the (possibly absent) first file
of the picker / drop event and update the dialog state. -/

/-- A browser `File` as far as the dialog inspects it: its MIME type. -/
structure UploadFile where
  name : String
  type : String
deriving DecidableEq, Repr

/-- The slice of the dashboard component state the upload handlers touch. -/
structure UploadState where
  selectedFile : Option UploadFile
  uploadSuccess : Bool
  uploadError : Option String
deriving DecidableEq, Repr

/-- `handleFileSelect`: takes `event.target.files?.[0]` and the previous state. -/
def handleFileSelect (file : Option UploadFile) (st : UploadState) : UploadState :=
  match file with
  | none => st
  | some f =>
    if f.type = "application/pdf" then
      { st with selectedFile := some f, uploadSuccess := false, uploadError := none }
    else
      { st with uploadError := some "Please select a PDF file only", selectedFile := none }

/-- `handleDrop`: takes `event.dataTransfer.files[0]` and the previous state.
Its body is character-for-character the same acceptance test as
`handleFileSelect`. -/
def handleDrop (file : Option UploadFile) (st : UploadState) : UploadState :=
  match file with
  | none => st
  | some f =>
    if f.type = "application/pdf" then
      { st with selectedFile := some f, uploadSuccess := false, uploadError := none }
    else
      { st with uploadError := some "Please select a PDF file only", selectedFile := none }

/-- An upload-dialog state with nothing selected, as after `handleUploadDocument`. -/
def emptyUploadState : UploadState :=
  { selectedFile := none, uploadSuccess := false, uploadError := none }

/-! ## Multi-tab SVG viewer (src/components/multi-tab-svg-viewer.tsx) -/

/-- Per-sheet view state of the Konva stage: scale and translation. -/
structure ViewState where
  scale : ℚ
  translateX : ℚ
  translateY : ℚ
deriving DecidableEq, Repr

/-- `handleWheel`: zoom towards the cursor.  Inputs: `deltaY` of the wheel
event, pointer position `(px, py)`, the old stage scale `oldScale` and the
old stage position `(tx, ty)`.  (The code returns early when the pointer is
absent; the pointer is given here.) -/
def handleWheel (deltaY px py oldScale tx ty : ℚ) : ViewState :=
  let mousePointToX := (px - tx) / oldScale
  let mousePointToY := (py - ty) / oldScale
  let scaleBy : ℚ := 1.1
  let newScale := if deltaY > 0 then oldScale / scaleBy else oldScale * scaleBy
  let clampedScale := max 0.1 (min 5 newScale)
  { scale := clampedScale
    translateX := px - mousePointToX * clampedScale
    translateY := py - mousePointToY * clampedScale }

/-- `handleZoom`: button zoom.  `delta` selects the factor, the optional
`centerX`/`centerY` default to the stage centre, `cur` is the current view
state of the active sheet. -/
def handleZoom (delta : ℚ) (centerX centerY : Option ℚ) (stageW stageH : ℚ)
    (cur : ViewState) : ViewState :=
  let mouseX := centerX.getD (stageW / 2)
  let mouseY := centerY.getD (stageH / 2)
  let scaleFactor : ℚ := if delta > 0 then 1.25 else 0.8
  let newScale := max 0.05 (min 10 (cur.scale * scaleFactor))
  let scaleChange := newScale / cur.scale
  { scale := newScale
    translateX := mouseX - (mouseX - cur.translateX) * scaleChange
    translateY := mouseY - (mouseY - cur.translateY) * scaleChange }

/-- `fitToContainer`: fit the current sheet into the stage.  Returns `none`
when the code returns early (zero stage size, or no recorded SVG dimensions
for the sheet). -/
def fitToContainer (stageW stageH : ℚ) (svgDim : Option (ℚ × ℚ)) : Option ViewState :=
  if stageW = 0 ∨ stageH = 0 then none
  else
    match svgDim with
    | none => none
    | some (w, h) =>
      let scaleX := stageW / w
      let scaleY := stageH / h
      let scale := min scaleX scaleY * 0.9
      some { scale := scale
             translateX := (stageW - w * scale) / 2
             translateY := (stageH - h * scale) / 2 }

/-! ## Bounding-box parsing (src/frontend/.../components/CheckDisplay.tsx)

`JSON.parse` is a platform builtin outside this repository; it is modelled
as an arbitrary function returning `none` exactly when it would throw. -/

/-- The bounding-box record used by `CheckDisplay`. -/
structure BoundingBox where
  x : ℚ
  y : ℚ
  width : ℚ
  height : ℚ
deriving DecidableEq, Repr

/-- `parseBoundingBox`: `try { return JSON.parse(bbox) } catch { return
default }`, with `jsonParse` standing for the platform `JSON.parse`. -/
def parseBoundingBox (jsonParse : String → Option BoundingBox) (bbox : String) : BoundingBox :=
  match jsonParse bbox with
  | some v => v
  | none => { x := 0, y := 0, width := 100, height := 100 }

/-! ## RFI modal (src/frontend/.../components/RFIModal.tsx) -/

/-- An RFI record as far as the modal inspects it. -/
structure RFIRec where
  id : Nat
  title : String
  description : String
  type : Option String
deriving DecidableEq, Repr

/-- The slice of the modal component state `fetchRFIs` touches. -/
structure RFIModalState where
  rfis : List RFIRec
  loading : Bool
  error : Option String
deriving DecidableEq, Repr

/-- Outcome of the awaited `fetch`/`json` pair inside `fetchRFIs`. -/
inductive FetchRFIsOutcome where
  /-- `response.ok` held and the body parsed; `rfis` is `data.rfis`
  (`none` when the field is absent). -/
  | ok (rfis : Option (List RFIRec))
  /-- `response.ok` was false, so the code threw into its own catch. -/
  | httpError
  /-- the `fetch` or `.json()` promise rejected. -/
  | thrown
deriving DecidableEq, Repr

/-- `fetchRFIs` run to completion: `setLoading(true); setError(null);
try { ... setRfis(data.rfis || []) } catch { setError(...) } finally
{ setLoading(false) }`, as a state transformer. -/
def fetchRFIs (outcome : FetchRFIsOutcome) (st : RFIModalState) : RFIModalState :=
  match outcome with
  | .ok data => { st with rfis := data.getD [], error := none, loading := false }
  | .httpError => { st with error := some "Failed to load RFIs", loading := false }
  | .thrown => { st with error := some "Failed to load RFIs", loading := false }

/-- The network requests one invocation of `fetchRFIs` issues (a single GET,
whatever the outcome). -/
def fetchRFIs_requests (projectId : String) : List String :=
  ["/api/rfis?projectId=" ++ projectId]

/-- What a click in the error view can run. -/
inductive RetryAction where
  | invokeFetchRFIs
deriving DecidableEq, Repr

/-- The error view wires its one button, labelled Try Again, to `fetchRFIs`:
`<Button onClick={fetchRFIs}>`. -/
def tryAgainOnClick : RetryAction := RetryAction.invokeFetchRFIs

/-- `hiddenRfiIds` constant of `RFIModal`. -/
def hiddenRfiIds : List Nat :=
  [1140, 1141, 1143, 1144, 1124, 1125, 1122, 1123, 1120, 1119, 1121, 1100, 1059, 1014, 1015]

/-- `getFilteredRfis` of `RFIModal`: overlay mode drops the hardcoded ids,
then the active tab filters by `rfi.type`. -/
def getFilteredRfis (isOverlayMode : Bool) (activeTab : String) (rfis : List RFIRec) :
    List RFIRec :=
  let filtered := if isOverlayMode then
      rfis.filter (fun rfi => !(hiddenRfiIds.contains rfi.id))
    else rfis
  if activeTab ≠ "all" then
    filtered.filter (fun rfi => rfi.type == some activeTab)
  else filtered

/-! ## Procore OAuth callback (src/app/oauth/procore/callback/page.tsx)

`handleCallback` awaits two `fetch` calls (a first one without query
parameters whose response is ignored, then the token exchange with the
`code`/`state` parameters) and lands in one of the three statuses.
The message strings are elided; only the status is modelled. -/

/-- Result of an awaited `fetch`: either the promise rejected, or a response
arrived with an `ok` flag, `jsonOk` telling whether `await resp.json()`
resolves. -/
inductive FetchResult where
  | thrown
  | resp (ok : Bool) (jsonOk : Bool)
deriving DecidableEq, Repr

/-- The query parameters of the callback URL. -/
structure CallbackParams where
  code : Option String
  error : Option String
  state : Option String
deriving DecidableEq, Repr

/-- The `status` state of the callback page. -/
inductive CallbackStatus where
  | loading
  | success
  | error
deriving DecidableEq, Repr

/-- JavaScript truthiness of `searchParams.get(...)`: `null` and the empty
string are falsy, every other string is truthy. -/
def jsTruthy (s : Option String) : Bool :=
  match s with
  | none => false
  | some s => !(s = "")

/-- `handleCallback` run to completion, as a function from the environment
(query parameters and the two fetch outcomes) to the final status.
`if (error)` and `if (!code)` are the source's truthiness tests. -/
def handleCallback (params : CallbackParams) (firstFetch secondFetch : FetchResult) :
    CallbackStatus :=
  if jsTruthy params.error then .error
  else if !(jsTruthy params.code) then .error
  else
    match firstFetch with
    | .thrown => .error
    | .resp _ _ =>
      match secondFetch with
      | .thrown => .error
      | .resp ok jsonOk =>
        if ok then
          if jsonOk then .success else .error
        else .error

/-- Whether the token-exchange response came back with `ok` (the condition
the spec claims decides success). -/
def tokenExchangeOk : FetchResult → Bool
  | .thrown => false
  | .resp ok _ => ok

/-! ## Version-differences tab (src/frontend/.../rfis/page.tsx)

The tab body maps over the module-level constant `mockVersionClashes`,
never over fetched state. -/

/-- An `OriginalImage` record of a version clash. -/
structure OriginalImage where
  id : Nat
  version : String
  versionCode : String
  imagePath : String
  description : String
  createdAt : String
deriving DecidableEq, Repr

/-- A `VersionClash` record. -/
structure VersionClash where
  id : Nat
  sheetCode : String
  title : String
  description : String
  overlayImagePath : String
  originalImages : List OriginalImage
  createdAt : String
  status : String
  priority : String
  affectedVersions : List String
  clashType : String
deriving DecidableEq, Repr

/-- The module-level constant `mockVersionClashes`. -/
def mockVersionClashes : List VersionClash :=
  [{ id := 1
     sheetCode := "S-1.1"
     title := "Wall extended for room 1302 on Floor 1 Area A in the new DD version"
     description := "Significant layout differences detected between CD and DD versions in room E102. The wall has been extended by 2 feet in the DD version, affecting the room layout and dimensions."
     overlayImagePath := "/overlay/a.png"
     originalImages :=
       [{ id := 1
          version := "90% CD"
          versionCode := "CD-2025-001"
          imagePath := "/overlay/a.png"
          description := "Original CD version showing initial room layout"
          createdAt := "2025-06-10T14:20:00Z" },
        { id := 2
          version := "90% DD"
          versionCode := "DD-2025-002"
          imagePath := "/overlay/main.png"
          description := "Updated DD version with modified wall positions"
          createdAt := "2025-06-15T10:30:00Z" }]
     createdAt := "2025-06-15T10:30:00Z"
     status := "Active"
     priority := "High"
     affectedVersions := ["90% CD", "90% DD"]
     clashType := "Architectural" }]

/-- The clash records the version-differences `TabsContent` renders:
`{mockVersionClashes.map((clash) => ...)}`.  The fetched RFI list is in
scope in the component but unused by this tab. -/
def versionDifferencesTab (fetchedRfis : List RFIRec) : List VersionClash :=
  mockVersionClashes

/-! ## Version-control comparison analysis (src/frontend/.../version-control/page.tsx) -/

/-- A sheet record as the version-control page receives it. -/
structure Sheet where
  id : Nat
  code : String
  title : String
  type : String
  page : Nat
  status : String
  documentId : Nat
  svgPath : Option String
deriving DecidableEq, Repr

/-- A document record as the version-control page receives it. -/
structure Document where
  id : Nat
  type : Option String
  path : String
  title : Option String
  projectId : Nat
deriving DecidableEq, Repr

/-- One entry of a comparison's `documents` array. -/
structure ComparisonEntry where
  documentId : Nat
  documentTitle : String
  sheet : Sheet
deriving DecidableEq, Repr

/-- A `SheetComparison` record. -/
structure SheetComparison where
  sheetCode : String
  documents : List ComparisonEntry
deriving DecidableEq, Repr

/-- `[...new Set(l)]`: first-occurrence deduplication in insertion order. -/
def jsDedup {α : Type} [DecidableEq α] (l : List α) : List α :=
  l.foldl (fun acc x => if x ∈ acc then acc else acc ++ [x]) []

/-- JavaScript `a || b` on an optional string: `undefined` and the empty
string are falsy. -/
def jsOrString (a : Option String) (b : String) : String :=
  match a with
  | some s => if s = "" then b else s
  | none => b

/-- The `sheetsByCode` object: grouping by `sheet.code`, keys in order of
first occurrence, each group in list order (the `forEach`/`push` loop). -/
def groupByCode (sheets : List Sheet) : List (String × List Sheet) :=
  sheets.foldl (fun acc s =>
    if acc.any (fun p => p.1 = s.code) then
      acc.map (fun p => if p.1 = s.code then (p.1, p.2 ++ [s]) else p)
    else acc ++ [(s.code, [s])]) []

/-- `analyzeSheetComparisons`: for each code group with more than one sheet
from more than one distinct document, push one comparison whose `documents`
has one entry per distinct `documentId` (first sheet with that id, document
title with the `Document N` fallback). -/
def analyzeSheetComparisons (allSheets : List Sheet) (allDocuments : List Document) :
    List SheetComparison :=
  (groupByCode allSheets).filterMap (fun pair =>
    let sheets := pair.2
    if sheets.length > 1 then
      let uniqueDocuments := jsDedup (sheets.map (fun s => s.documentId))
      if uniqueDocuments.length > 1 then
        some { sheetCode := pair.1
               documents := uniqueDocuments.filterMap (fun docId =>
                 (sheets.find? (fun s => s.documentId = docId)).map (fun sheet =>
                   { documentId := docId
                     documentTitle :=
                       jsOrString ((allDocuments.find? (fun d => d.id = docId)).bind
                         (fun d => d.title)) ("Document " ++ toString docId)
                     sheet := sheet })) }
      else none
    else none)

/-- The body `analyzeSheetComparisons` runs for one code group, applied to a
code `c` and the full inputs (so that the grouping lemma can be stated):
identical to the group branch of `analyzeSheetComparisons` with the group
expressed as `allSheets.filter (·.code = c)`. -/
def comparisonForCode (allSheets : List Sheet) (allDocuments : List Document) (c : String) :
    Option SheetComparison :=
  let sheets := allSheets.filter (fun s => s.code = c)
  if sheets.length > 1 then
    let uniqueDocuments := jsDedup (sheets.map (fun s => s.documentId))
    if uniqueDocuments.length > 1 then
      some { sheetCode := c
             documents := uniqueDocuments.filterMap (fun docId =>
               (sheets.find? (fun s => s.documentId = docId)).map (fun sheet =>
                 { documentId := docId
                   documentTitle :=
                     jsOrString ((allDocuments.find? (fun d => d.id = docId)).bind
                       (fun d => d.title)) ("Document " ++ toString docId)
                   sheet := sheet })) }
    else none
  else none

/-! ## RFI description editing (src/frontend/.../rfis/page.tsx)

Strings are modelled as `List Char`.  `String.prototype.split` with a fixed
separator scans left to right, always yields at least one part, and
`parts.join(sep)` is its inverse. -/

/-- The blank-line separator, `\n\n`. -/
def nn : List Char := ['\n', '\n']

/-- `s.split('\n\n')`: leftmost-first split on the two-character separator. -/
def splitOnNN : List Char → List (List Char)
  | [] => [[]]
  | [c] => [[c]]
  | c1 :: c2 :: rest =>
    if c1 = '\n' ∧ c2 = '\n' then
      [] :: splitOnNN rest
    else
      match splitOnNN (c2 :: rest) with
      | [] => [[c1]]
      | p :: ps => (c1 :: p) :: ps

/-- `s.split('\n')`. -/
def splitOnLF : List Char → List (List Char)
  | [] => [[]]
  | c :: rest =>
    if c = '\n' then
      [] :: splitOnLF rest
    else
      match splitOnLF rest with
      | [] => [[c]]
      | p :: ps => (c :: p) :: ps

/-- The characters `String.prototype.trim` strips (ECMAScript WhiteSpace and
LineTerminator, restricted to the code points that can occur here). -/
def isJsSpace (c : Char) : Bool :=
  c = ' ' || c = '\t' || c = '\n' || c = '\r' ||
  c = '\x0b' || c = '\x0c' || c = '\u00A0' || c = '\uFEFF'

/-- `s.trim()`. -/
def jsTrim (s : List Char) : List Char :=
  ((s.dropWhile isJsSpace).reverse.dropWhile isJsSpace).reverse

/-- `a.includes(b)` on strings. -/
def jsIncludes (hay needle : List Char) : Bool :=
  hay.tails.any (fun t => needle.isPrefixOf t)

/-- `cleanRfiDescription`: strip the title prefix from an RFI description. -/
def cleanRfiDescription (description : List Char) : List Char :=
  if description = [] then []
  else
    let parts := splitOnNN description
    if parts.length > 1 then
      jsTrim (List.intercalate nn parts.tail)
    else
      let lines := splitOnLF description
      if lines.length > 1 then
        let firstLine := jsTrim (lines.headD [])
        if jsIncludes firstLine "Page".toList || jsIncludes firstLine "#".toList ||
           jsIncludes firstLine "Level".toList || jsIncludes firstLine " - ".toList then
          jsTrim (List.intercalate ['\n'] lines.tail)
        else
          jsTrim description
      else
        jsTrim description

/-- The string `handleSaveRfiDescription` PATCHes to the backend and stores
locally: the first `\n\n`-part of the original description, `\n\n`, then the
edited text. -/
def handleSaveRfiDescription (originalDescription editedRfiDescription : List Char) :
    List Char :=
  let originalParts := splitOnNN originalDescription
  let titlePart := originalParts.headD []
  titlePart ++ nn ++ editedRfiDescription

/-! ## Theorems -/

/-- C1 (counterexample): an SVG file (`image/svg+xml`) selected in the
upload dialog is rejected with the message the claim says never appears for
SVG, and does not become the selected upload — by either handler. -/
theorem uploadDialog_rejects_svg :
    (handleFileSelect (some { name := "plans.svg", type := "image/svg+xml" })
        emptyUploadState).uploadError = some "Please select a PDF file only" ∧
    (handleFileSelect (some { name := "plans.svg", type := "image/svg+xml" })
        emptyUploadState).selectedFile = none ∧
    (handleDrop (some { name := "plans.svg", type := "image/svg+xml" })
        emptyUploadState).uploadError = some "Please select a PDF file only" ∧
    (handleDrop (some { name := "plans.svg", type := "image/svg+xml" })
        emptyUploadState).selectedFile = none := by
  decide

/-- C1 (amended): the upload dialog accepts exactly the files whose MIME
type is `application/pdf`; any other file — SVG included — is rejected with
the message Please select a PDF file only, and drag-and-drop behaves
the same as the picker. -/
theorem uploadDialog_pdf_only (f : UploadFile) (st : UploadState) :
    ((handleFileSelect (some f) st).selectedFile = some f ∧
        (handleFileSelect (some f) st).uploadError = none
      ↔ f.type = "application/pdf") ∧
    ((handleFileSelect (some f) st).uploadError = some "Please select a PDF file only"
      ↔ f.type ≠ "application/pdf") ∧
    handleDrop (some f) st = handleFileSelect (some f) st := by
  by_cases h : f.type = "application/pdf" <;>
    simp [handleFileSelect, handleDrop, h]

/-- C3: wheel zoom keeps the drawing point under the cursor fixed — the
world coordinate of the pointer before the zoom equals the one after. -/
theorem handleWheel_preserves_cursor_point (deltaY px py s tx ty : ℚ) (hs : 0 < s) :
    (px - (handleWheel deltaY px py s tx ty).translateX) /
        (handleWheel deltaY px py s tx ty).scale = (px - tx) / s ∧
    (py - (handleWheel deltaY px py s tx ty).translateY) /
        (handleWheel deltaY px py s tx ty).scale = (py - ty) / s := by
  have hc : (0 : ℚ) < max 0.1 (min 5 (if deltaY > 0 then s / 1.1 else s * 1.1)) :=
    lt_of_lt_of_le (by norm_num) (le_max_left _ _)
  have hc' := hc.ne'
  constructor <;>
  · show (_ - (_ - (_ - _) / s * max 0.1 (min 5 _))) / max 0.1 (min 5 _) = _
    field_simp
    ring

/-- C3 (witness): instantiated at pointer (1, 1), old scale 2, old position
(0, 0). -/
theorem handleWheel_preserves_cursor_point_witness :
    (0 : ℚ) < 2 ∧
    ((1 - (handleWheel 1 1 1 2 0 0).translateX) / (handleWheel 1 1 1 2 0 0).scale
        = (1 - 0) / 2 ∧
     (1 - (handleWheel 1 1 1 2 0 0).translateY) / (handleWheel 1 1 1 2 0 0).scale
        = (1 - 0) / 2) :=
  ⟨by norm_num, handleWheel_preserves_cursor_point 1 1 1 2 0 0 (by norm_num)⟩

/-- C4: the wheel handler clamps the new scale into [0.1, 5] and the button
handler clamps it into [0.05, 10], for every prior view state and event. -/
theorem zoom_scales_clamped (deltaY px py s tx ty delta : ℚ)
    (centerX centerY : Option ℚ) (stageW stageH : ℚ) (cur : ViewState) :
    (0.1 ≤ (handleWheel deltaY px py s tx ty).scale ∧
      (handleWheel deltaY px py s tx ty).scale ≤ 5) ∧
    (0.05 ≤ (handleZoom delta centerX centerY stageW stageH cur).scale ∧
      (handleZoom delta centerX centerY stageW stageH cur).scale ≤ 10) := by
  simp only [handleWheel, handleZoom]
  exact ⟨⟨le_max_left _ _, max_le (by norm_num) (min_le_left _ _)⟩,
         ⟨le_max_left _ _, max_le (by norm_num) (min_le_left _ _)⟩⟩

/-- C5: `fitToContainer` on a positive stage and positive SVG dimensions
produces scale 0.9 · min(W/w, H/h); the scaled drawing fits in the stage and
the translation centres it with nonnegative margins. -/
theorem fitToContainer_correct (W H w h : ℚ)
    (hW : 0 < W) (hH : 0 < H) (hw : 0 < w) (hh : 0 < h) :
    ∃ vs, fitToContainer W H (some (w, h)) = some vs ∧
      vs.scale = 0.9 * min (W / w) (H / h) ∧
      w * vs.scale ≤ W ∧ h * vs.scale ≤ H ∧
      vs.translateX = (W - w * vs.scale) / 2 ∧
      vs.translateY = (H - h * vs.scale) / 2 ∧
      0 ≤ vs.translateX ∧ 0 ≤ vs.translateY := by
  have hmin1 : min (W / w) (H / h) ≤ W / w := min_le_left _ _
  have hmin2 : min (W / w) (H / h) ≤ H / h := min_le_right _ _
  have hwle : w * (min (W / w) (H / h) * 0.9) ≤ W := by
    have h1 : w * (min (W / w) (H / h) * 0.9) ≤ w * (W / w * 0.9) := by
      have := mul_le_mul_of_nonneg_right hmin1 (by norm_num : (0:ℚ) ≤ 0.9)
      exact mul_le_mul_of_nonneg_left this hw.le
    have h2 : w * (W / w * 0.9) = W * 0.9 := by
      field_simp
    nlinarith
  have hhle : h * (min (W / w) (H / h) * 0.9) ≤ H := by
    have h1 : h * (min (W / w) (H / h) * 0.9) ≤ h * (H / h * 0.9) := by
      have := mul_le_mul_of_nonneg_right hmin2 (by norm_num : (0:ℚ) ≤ 0.9)
      exact mul_le_mul_of_nonneg_left this hh.le
    have h2 : h * (H / h * 0.9) = H * 0.9 := by
      field_simp
    nlinarith
  refine ⟨{ scale := min (W / w) (H / h) * 0.9,
            translateX := (W - w * (min (W / w) (H / h) * 0.9)) / 2,
            translateY := (H - h * (min (W / w) (H / h) * 0.9)) / 2 },
          ?_, ?_, ?_, ?_, ?_, ?_, ?_, ?_⟩
  · unfold fitToContainer
    rw [if_neg (by push_neg; exact ⟨hW.ne', hH.ne'⟩)]
  · show min (W / w) (H / h) * 0.9 = 0.9 * min (W / w) (H / h)
    ring
  · exact hwle
  · exact hhle
  · rfl
  · rfl
  · exact div_nonneg (by linarith) (by norm_num)
  · exact div_nonneg (by linarith) (by norm_num)

/-- C5 (witness): a 100×100 stage and a 50×40 drawing. -/
theorem fitToContainer_correct_witness :
    (0 : ℚ) < 100 ∧ (0 : ℚ) < 50 ∧ (0 : ℚ) < 40 ∧
    (∃ vs, fitToContainer 100 100 (some (50, 40)) = some vs ∧
      vs.scale = 0.9 * min ((100 : ℚ) / 50) (100 / 40) ∧
      50 * vs.scale ≤ 100 ∧ 40 * vs.scale ≤ 100 ∧
      vs.translateX = (100 - 50 * vs.scale) / 2 ∧
      vs.translateY = (100 - 40 * vs.scale) / 2 ∧
      0 ≤ vs.translateX ∧ 0 ≤ vs.translateY) :=
  ⟨by norm_num, by norm_num, by norm_num,
   fitToContainer_correct 100 100 50 40 (by norm_num) (by norm_num) (by norm_num) (by norm_num)⟩

/-- C10: `parseBoundingBox` is total — for every input it either returns the
parsed value, or the parse fails and it returns the default box
(0, 0, 100, 100); no exception reaches the caller. -/
theorem parseBoundingBox_total (jsonParse : String → Option BoundingBox) (s : String) :
    (∃ v, jsonParse s = some v ∧ parseBoundingBox jsonParse s = v) ∨
    (jsonParse s = none ∧
      parseBoundingBox jsonParse s = { x := 0, y := 0, width := 100, height := 100 }) := by
  cases h : jsonParse s with
  | some v => exact Or.inl ⟨v, rfl, by simp [parseBoundingBox, h]⟩
  | none => exact Or.inr ⟨rfl, by simp [parseBoundingBox, h]⟩

/-- C6: when the RFI fetch fails (non-ok response or a rejected promise) the
modal sets the error message Failed to load RFIs, keeps the previous RFI
list, clears the loading flag; the Try Again button re-invokes `fetchRFIs`,
and one invocation issues exactly one request (no automatic retry). -/
theorem fetchRFIs_failure_behavior (st : RFIModalState) (o : FetchRFIsOutcome)
    (h : o = FetchRFIsOutcome.httpError ∨ o = FetchRFIsOutcome.thrown) :
    (fetchRFIs o st).error = some "Failed to load RFIs" ∧
    (fetchRFIs o st).rfis = st.rfis ∧
    (fetchRFIs o st).loading = false ∧
    tryAgainOnClick = RetryAction.invokeFetchRFIs ∧
    ∀ projectId, (fetchRFIs_requests projectId).length = 1 := by
  rcases h with h | h <;> subst h <;>
    simp [fetchRFIs, tryAgainOnClick, fetchRFIs_requests]

/-- C6 (witness): a non-ok response with one RFI already loaded. -/
theorem fetchRFIs_failure_behavior_witness :
    (FetchRFIsOutcome.httpError = FetchRFIsOutcome.httpError ∨
      FetchRFIsOutcome.httpError = FetchRFIsOutcome.thrown) ∧
    ((fetchRFIs FetchRFIsOutcome.httpError
        { rfis := [{ id := 7, title := "t", description := "d", type := none }],
          loading := true, error := none }).error = some "Failed to load RFIs" ∧
     (fetchRFIs FetchRFIsOutcome.httpError
        { rfis := [{ id := 7, title := "t", description := "d", type := none }],
          loading := true, error := none }).rfis
        = [{ id := 7, title := "t", description := "d", type := none }] ∧
     (fetchRFIs FetchRFIsOutcome.httpError
        { rfis := [{ id := 7, title := "t", description := "d", type := none }],
          loading := true, error := none }).loading = false ∧
     tryAgainOnClick = RetryAction.invokeFetchRFIs ∧
     ∀ projectId, (fetchRFIs_requests projectId).length = 1) :=
  ⟨Or.inl rfl, fetchRFIs_failure_behavior _ _ (Or.inl rfl)⟩

/-- C7 (counterexample): with a code present, no error parameter, the first
awaited fetch rejecting and a token-exchange response that would be ok, the
page ends in the error state although the claim says the ok response makes
it end in success. -/
theorem oauthCallback_claim_false :
    ¬ ((handleCallback { code := some "abc123", error := none, state := none }
          FetchResult.thrown (FetchResult.resp true true) = CallbackStatus.success)
        ↔ tokenExchangeOk (FetchResult.resp true true) = true) := by
  decide

/-- C7 (amended): the callback page ends in success exactly when the URL
carries no truthy (non-empty) error parameter, carries a truthy code
parameter, the first awaited fetch does not reject, and the token-exchange
fetch yields an ok response whose body parses; it ends in error in every
other case. -/
theorem handleCallback_status (p : CallbackParams) (f1 f2 : FetchResult) :
    (handleCallback p f1 f2 = CallbackStatus.success ↔
      jsTruthy p.error = false ∧ jsTruthy p.code = true ∧ f1 ≠ FetchResult.thrown ∧
        f2 = FetchResult.resp true true) ∧
    (handleCallback p f1 f2 = CallbackStatus.error ↔
      ¬ (jsTruthy p.error = false ∧ jsTruthy p.code = true ∧ f1 ≠ FetchResult.thrown ∧
        f2 = FetchResult.resp true true)) := by
  cases he : jsTruthy p.error <;> cases hc : jsTruthy p.code <;>
    rcases f1 with _ | ⟨ok1, j1⟩ <;> rcases f2 with _ | ⟨ok2, j2⟩ <;>
    simp [handleCallback, he, hc] <;>
    cases ok2 <;> cases j2 <;> simp

/-- C2 (counterexample): with no data fetched at all, the version-differences
tab still renders one clash record — the module constant `mockVersionClashes`,
defined inside this repository. -/
theorem versionTab_renders_constant_data :
    versionDifferencesTab [] = mockVersionClashes ∧ mockVersionClashes ≠ [] :=
  ⟨rfl, by simp [mockVersionClashes]⟩

/-- C2 (amended): the version-differences tab renders the hardcoded
`mockVersionClashes` constant whatever was fetched, and the modal overlay
mode filters the fetched list through the hardcoded `hiddenRfiIds`. -/
theorem versionTab_constant_and_overlay_filter (rfis : List RFIRec) :
    versionDifferencesTab rfis = mockVersionClashes ∧
    mockVersionClashes.length = 1 ∧
    getFilteredRfis true "all" rfis
      = rfis.filter (fun r => !(hiddenRfiIds.contains r.id)) := by
  refine ⟨rfl, rfl, ?_⟩
  simp [getFilteredRfis]

/-! ### Helper lemmas about `jsDedup` and `groupByCode` -/

theorem jsDedup_foldl_mem {α : Type} [DecidableEq α] (l : List α) (acc : List α) (a : α) :
    a ∈ l.foldl (fun acc x => if x ∈ acc then acc else acc ++ [x]) acc ↔ a ∈ acc ∨ a ∈ l := by
  induction l generalizing acc with
  | nil => simp
  | cons x xs ih =>
    simp only [List.foldl_cons]
    by_cases hx : x ∈ acc
    · rw [if_pos hx, ih]
      constructor
      · rintro (h | h)
        · exact Or.inl h
        · exact Or.inr (List.mem_cons_of_mem _ h)
      · rintro (h | h)
        · exact Or.inl h
        · rcases List.mem_cons.mp h with rfl | h
          · exact Or.inl hx
          · exact Or.inr h
    · rw [if_neg hx, ih]
      simp [List.mem_append, or_assoc]

theorem mem_jsDedup {α : Type} [DecidableEq α] (l : List α) (a : α) :
    a ∈ jsDedup l ↔ a ∈ l := by
  unfold jsDedup
  rw [jsDedup_foldl_mem]
  simp

theorem jsDedup_foldl_nodup {α : Type} [DecidableEq α] (l : List α) (acc : List α)
    (h : acc.Nodup) :
    (l.foldl (fun acc x => if x ∈ acc then acc else acc ++ [x]) acc).Nodup := by
  induction l generalizing acc with
  | nil => simpa
  | cons x xs ih =>
    simp only [List.foldl_cons]
    by_cases hx : x ∈ acc
    · rw [if_pos hx]
      exact ih _ h
    · rw [if_neg hx]
      refine ih _ (List.nodup_append.mpr ⟨h, List.nodup_singleton x, fun a ha hb => ?_⟩)
      rw [List.mem_singleton] at hb
      subst hb
      exact hx ha

theorem jsDedup_nodup {α : Type} [DecidableEq α] (l : List α) : (jsDedup l).Nodup :=
  jsDedup_foldl_nodup l [] List.nodup_nil

theorem two_mem_one_lt_length {α : Type} (l : List α) (a b : α)
    (ha : a ∈ l) (hb : b ∈ l) (hab : a ≠ b) : 1 < l.length := by
  cases l with
  | nil => cases ha
  | cons x xs =>
    cases xs with
    | nil =>
      rw [List.mem_singleton] at ha hb
      exact absurd (ha.trans hb.symm) hab
    | cons y ys =>
      simp only [List.length_cons]
      omega

theorem one_lt_jsDedup_length_iff {α : Type} [DecidableEq α] (l : List α) :
    1 < (jsDedup l).length ↔ ∃ a ∈ l, ∃ b ∈ l, a ≠ b := by
  constructor
  · intro h
    rcases hd : jsDedup l with _ | ⟨a, _ | ⟨b, rest⟩⟩ <;> rw [hd] at h
    · simp at h
    · simp at h
    · have ha : a ∈ jsDedup l := by rw [hd]; exact List.mem_cons_self _ _
      have hb : b ∈ jsDedup l := by rw [hd]; simp
      have hnd := jsDedup_nodup l
      rw [hd] at hnd
      have hab : a ≠ b := by
        rcases List.nodup_cons.mp hnd with ⟨hna, _⟩
        intro e
        exact hna (by rw [e]; simp)
      exact ⟨a, (mem_jsDedup l a).mp ha, b, (mem_jsDedup l b).mp hb, hab⟩
  · rintro ⟨a, ha, b, hb, hab⟩
    exact two_mem_one_lt_length _ a b ((mem_jsDedup l a).mpr ha) ((mem_jsDedup l b).mpr hb) hab

theorem jsDedup_append_singleton {α : Type} [DecidableEq α] (l : List α) (x : α) :
    jsDedup (l ++ [x]) = if x ∈ jsDedup l then jsDedup l else jsDedup l ++ [x] := by
  unfold jsDedup
  rw [List.foldl_append]
  rfl

theorem groupByCode_append_singleton (l : List Sheet) (s : Sheet) :
    groupByCode (l ++ [s]) =
      if (groupByCode l).any (fun p => p.1 = s.code) then
        (groupByCode l).map (fun p => if p.1 = s.code then (p.1, p.2 ++ [s]) else p)
      else groupByCode l ++ [(s.code, [s])] := by
  unfold groupByCode
  rw [List.foldl_append]
  rfl

theorem groupByCode_eq (l : List Sheet) :
    groupByCode l = (jsDedup (l.map Sheet.code)).map
      (fun c => (c, l.filter (fun s => s.code = c))) := by
  induction l using List.reverseRecOn with
  | nil => rfl
  | append_singleton l s ih =>
    rw [groupByCode_append_singleton, ih]
    simp only [List.map_append, List.map_cons, List.map_nil]
    rw [jsDedup_append_singleton]
    by_cases hmem : s.code ∈ l.map Sheet.code
    · rw [if_pos, if_pos ((mem_jsDedup _ _).mpr hmem)]
      · rw [List.map_map]
        apply List.map_congr_left
        intro c hc
        by_cases hcs : c = s.code
        · subst hcs
          simp [Function.comp, List.filter_append]
        · have hsc : ¬ (s.code = c) := fun e => hcs e.symm
          simp [Function.comp, hcs, hsc, List.filter_append]
      · rw [List.any_eq_true]
        exact ⟨(s.code, l.filter (fun t => t.code = s.code)),
               List.mem_map.mpr ⟨s.code, (mem_jsDedup _ _).mpr hmem, rfl⟩, by simp⟩
    · rw [if_neg, if_neg (fun h => hmem ((mem_jsDedup _ _).mp h))]
      · rw [List.map_append]
        congr 1
        · apply List.map_congr_left
          intro c hc
          have hc' : c ∈ l.map Sheet.code := (mem_jsDedup _ _).mp hc
          have hcs : ¬ (s.code = c) := by
            intro e
            exact hmem (e ▸ hc')
          simp [List.filter_append, hcs]
        · have hfil : l.filter (fun t => t.code = s.code) = [] := by
            rw [List.filter_eq_nil_iff]
            intro t ht hts
            exact hmem (List.mem_map.mpr ⟨t, ht, by simpa using hts⟩)
          simp [List.filter_append, hfil]
      · rw [List.any_eq_true]
        rintro ⟨x, hx, hpx⟩
        obtain ⟨c, hc, rfl⟩ := List.mem_map.mp hx
        simp only [decide_eq_true_eq] at hpx
        exact hmem (hpx ▸ (mem_jsDedup _ _).mp hc)

theorem analyzeSheetComparisons_eq (allSheets : List Sheet) (allDocuments : List Document) :
    analyzeSheetComparisons allSheets allDocuments
      = (jsDedup (allSheets.map Sheet.code)).filterMap
          (comparisonForCode allSheets allDocuments) := by
  unfold analyzeSheetComparisons comparisonForCode
  rw [groupByCode_eq, List.filterMap_map]
  rfl

theorem comparisonForCode_sheetCode (S : List Sheet) (D : List Document) (c : String)
    (comp : SheetComparison) (h : comparisonForCode S D c = some comp) :
    comp.sheetCode = c := by
  simp only [comparisonForCode] at h
  split_ifs at h
  simp only [Option.some.injEq] at h
  rw [← h]

theorem comparisonForCode_documents (S : List Sheet) (D : List Document) (c : String)
    (comp : SheetComparison) (h : comparisonForCode S D c = some comp) :
    comp.documents
      = (jsDedup ((S.filter (fun s => s.code = c)).map (fun s => s.documentId))).filterMap
          (fun docId =>
            ((S.filter (fun s => s.code = c)).find? (fun s => s.documentId = docId)).map
              (fun sheet =>
                { documentId := docId
                  documentTitle :=
                    jsOrString ((D.find? (fun d => d.id = docId)).bind
                      (fun d => d.title)) ("Document " ++ toString docId)
                  sheet := sheet })) := by
  simp only [comparisonForCode] at h
  split_ifs at h
  simp only [Option.some.injEq] at h
  rw [← h]

theorem comparisonForCode_isSome_iff (S : List Sheet) (D : List Document) (c : String) :
    (comparisonForCode S D c).isSome = true ↔
      1 < (jsDedup ((S.filter (fun s => s.code = c)).map (fun s => s.documentId))).length := by
  simp only [comparisonForCode]
  split_ifs with h1 h2
  · simpa using h2
  · simpa using h2
  · simp only [Option.isSome_none, Bool.false_eq_true, false_iff]
    intro hlen
    obtain ⟨a, ha, b, hb, hab⟩ := (one_lt_jsDedup_length_iff _).mp hlen
    have h2l := two_mem_one_lt_length _ a b ha hb hab
    rw [List.length_map] at h2l
    exact h1 h2l

theorem map_sheetCode_filterMap (L : List String) (f : String → Option SheetComparison)
    (hf : ∀ c comp, f c = some comp → comp.sheetCode = c) :
    (L.filterMap f).map SheetComparison.sheetCode = L.filter (fun c => (f c).isSome) := by
  induction L with
  | nil => rfl
  | cons c L ih =>
    cases hfc : f c with
    | none => simp [List.filterMap_cons, hfc, ih]
    | some comp => simp [List.filterMap_cons, hfc, ih, hf c comp hfc]

theorem documents_map_docId (Dd : List Nat) (group : List Sheet) (D : List Document)
    (hD : ∀ dId ∈ Dd, ∃ s ∈ group, s.documentId = dId) :
    ((Dd.filterMap (fun docId =>
        (group.find? (fun s => s.documentId = docId)).map
          (fun sheet =>
            ({ documentId := docId
               documentTitle :=
                 jsOrString ((D.find? (fun d => d.id = docId)).bind
                   (fun d => d.title)) ("Document " ++ toString docId)
               sheet := sheet } : ComparisonEntry)))).map ComparisonEntry.documentId) = Dd := by
  induction Dd with
  | nil => rfl
  | cons d Dd ih =>
    obtain ⟨s, hs, hds⟩ := hD d (List.mem_cons_self _ _)
    have hfind : (group.find? (fun s => s.documentId = d)).isSome := by
      rw [List.find?_isSome]
      exact ⟨s, hs, by simp [hds]⟩
    obtain ⟨s', hs'⟩ := Option.isSome_iff_exists.mp hfind
    simp only [List.filterMap_cons, hs', Option.map_some', List.map_cons]
    rw [ih (fun x hx => hD x (List.mem_cons_of_mem _ hx))]

/-- C9: `analyzeSheetComparisons` produces exactly one comparison per sheet
code that occurs on sheets of at least two distinct documents (none for codes
confined to one document), and that comparison's `documents` list has exactly
one entry per distinct `documentId` carrying the code. -/
theorem analyzeSheetComparisons_characterization (allSheets : List Sheet)
    (allDocuments : List Document) :
    ((analyzeSheetComparisons allSheets allDocuments).map SheetComparison.sheetCode).Nodup ∧
    (∀ code : String,
      code ∈ (analyzeSheetComparisons allSheets allDocuments).map SheetComparison.sheetCode ↔
        ∃ s1 ∈ allSheets, ∃ s2 ∈ allSheets,
          s1.code = code ∧ s2.code = code ∧ s1.documentId ≠ s2.documentId) ∧
    (∀ comp ∈ analyzeSheetComparisons allSheets allDocuments,
      (comp.documents.map ComparisonEntry.documentId).Nodup ∧
      ∀ dId : Nat,
        dId ∈ comp.documents.map ComparisonEntry.documentId ↔
          ∃ s ∈ allSheets, s.code = comp.sheetCode ∧ s.documentId = dId) := by
  have heq := analyzeSheetComparisons_eq allSheets allDocuments
  have hmapcode : (analyzeSheetComparisons allSheets allDocuments).map SheetComparison.sheetCode
      = (jsDedup (allSheets.map Sheet.code)).filter
          (fun c => (comparisonForCode allSheets allDocuments c).isSome) := by
    rw [heq]
    exact map_sheetCode_filterMap _ _ (comparisonForCode_sheetCode allSheets allDocuments)
  refine ⟨?_, ?_, ?_⟩
  · rw [hmapcode]
    exact (jsDedup_nodup _).filter _
  · intro code
    rw [hmapcode, List.mem_filter]
    constructor
    · rintro ⟨hcK, hsome⟩
      have h2 := (comparisonForCode_isSome_iff allSheets allDocuments code).mp hsome
      obtain ⟨a, ha, b, hb, hab⟩ := (one_lt_jsDedup_length_iff _).mp h2
      obtain ⟨s1, hs1, hs1d⟩ := List.mem_map.mp ha
      obtain ⟨s2, hs2, hs2d⟩ := List.mem_map.mp hb
      rw [List.mem_filter] at hs1 hs2
      refine ⟨s1, hs1.1, s2, hs2.1, by simpa using hs1.2, by simpa using hs2.2, ?_⟩
      rw [hs1d, hs2d]
      exact hab
    · rintro ⟨s1, hs1, s2, hs2, hc1, hc2, hd⟩
      refine ⟨(mem_jsDedup _ _).mpr (List.mem_map.mpr ⟨s1, hs1, hc1⟩), ?_⟩
      rw [comparisonForCode_isSome_iff]
      rw [one_lt_jsDedup_length_iff]
      exact ⟨s1.documentId,
             List.mem_map.mpr ⟨s1, List.mem_filter.mpr ⟨hs1, by simp [hc1]⟩, rfl⟩,
             s2.documentId,
             List.mem_map.mpr ⟨s2, List.mem_filter.mpr ⟨hs2, by simp [hc2]⟩, rfl⟩, hd⟩
  · intro comp hcomp
    rw [heq] at hcomp
    obtain ⟨c, hcK, hc⟩ := List.mem_filterMap.mp hcomp
    have hcode := comparisonForCode_sheetCode allSheets allDocuments c comp hc
    have hdocs := comparisonForCode_documents allSheets allDocuments c comp hc
    have hDmem : ∀ dId ∈ jsDedup ((allSheets.filter (fun s => s.code = c)).map
        (fun s => s.documentId)),
        ∃ s ∈ allSheets.filter (fun s => s.code = c), s.documentId = dId := by
      intro dId hdId
      exact List.mem_map.mp ((mem_jsDedup _ _).mp hdId)
    have hmapd : comp.documents.map ComparisonEntry.documentId
        = jsDedup ((allSheets.filter (fun s => s.code = c)).map (fun s => s.documentId)) := by
      rw [hdocs]
      exact documents_map_docId _ _ _ hDmem
    constructor
    · rw [hmapd]
      exact jsDedup_nodup _
    · intro dId
      rw [hmapd, mem_jsDedup, List.mem_map]
      constructor
      · rintro ⟨s, hs, hsd⟩
        rw [List.mem_filter] at hs
        refine ⟨s, hs.1, ?_, hsd⟩
        rw [hcode]
        simpa using hs.2
      · rintro ⟨s, hs, hsc, hsd⟩
        refine ⟨s, List.mem_filter.mpr ⟨hs, ?_⟩, hsd⟩
        rw [hcode] at hsc
        simp [hsc]

/-! ### Helper lemmas about `splitOnNN` -/

theorem splitOnNN_sep (rest : List Char) :
    splitOnNN ('\n' :: '\n' :: rest) = [] :: splitOnNN rest := by
  simp [splitOnNN]

theorem splitOnNN_cons_cons (c1 c2 : Char) (rest : List Char)
    (h : ¬(c1 = '\n' ∧ c2 = '\n')) :
    splitOnNN (c1 :: c2 :: rest) =
      match splitOnNN (c2 :: rest) with
      | [] => [[c1]]
      | p :: ps => (c1 :: p) :: ps := by
  simp only [splitOnNN]
  rw [if_neg h]

theorem splitOnNN_ne_nil : ∀ s : List Char, splitOnNN s ≠ []
  | [] => by simp [splitOnNN]
  | [c] => by simp [splitOnNN]
  | c1 :: c2 :: rest => by
    by_cases h : c1 = '\n' ∧ c2 = '\n'
    · obtain ⟨rfl, rfl⟩ := h
      rw [splitOnNN_sep]
      simp
    · rw [splitOnNN_cons_cons c1 c2 rest h]
      cases hs : splitOnNN (c2 :: rest) with
      | nil => simp
      | cons p ps => simp

theorem intercalate_singleton {α : Type} (sep : List α) (x : List α) :
    List.intercalate sep [x] = x := by
  simp [List.intercalate]

theorem intercalate_cons_cons {α : Type} (sep x y : List α) (ys : List (List α)) :
    List.intercalate sep (x :: y :: ys) = x ++ sep ++ List.intercalate sep (y :: ys) := by
  rw [List.intercalate, List.intercalate, List.intersperse_cons_cons,
      List.flatten_cons, List.flatten_cons, List.append_assoc]

theorem intercalate_splitOnNN : ∀ s : List Char, List.intercalate nn (splitOnNN s) = s
  | [] => by simp [splitOnNN, intercalate_singleton]
  | [c] => by simp [splitOnNN, intercalate_singleton]
  | c1 :: c2 :: rest => by
    by_cases h : c1 = '\n' ∧ c2 = '\n'
    · obtain ⟨rfl, rfl⟩ := h
      rw [splitOnNN_sep]
      cases hs : splitOnNN rest with
      | nil => exact absurd hs (splitOnNN_ne_nil rest)
      | cons p ps =>
        have hrec := intercalate_splitOnNN rest
        rw [hs] at hrec
        rw [intercalate_cons_cons, hrec]
        simp [nn]
    · rw [splitOnNN_cons_cons c1 c2 rest h]
      cases hs : splitOnNN (c2 :: rest) with
      | nil => exact absurd hs (splitOnNN_ne_nil _)
      | cons p ps =>
        have hrec := intercalate_splitOnNN (c2 :: rest)
        rw [hs] at hrec
        cases ps with
        | nil =>
          rw [intercalate_singleton] at hrec
          simp only [intercalate_singleton]
          rw [← hrec]
        | cons q qs =>
          rw [intercalate_cons_cons] at hrec
          rw [intercalate_cons_cons]
          simp only [List.cons_append]
          rw [hrec]

theorem splitOnNN_append (t d : List Char) (ht : '\n' ∉ t) :
    splitOnNN (t ++ (nn ++ d)) = t :: splitOnNN d := by
  induction t with
  | nil =>
    show splitOnNN ('\n' :: '\n' :: d) = [] :: splitOnNN d
    exact splitOnNN_sep d
  | cons c t' ih =>
    have hc : c ≠ '\n' := fun e => ht (e ▸ List.mem_cons_self c t')
    have ht' : '\n' ∉ t' := fun m => ht (List.mem_cons_of_mem _ m)
    cases t' with
    | nil =>
      show splitOnNN (c :: '\n' :: '\n' :: d) = [c] :: splitOnNN d
      rw [splitOnNN_cons_cons c '\n' ('\n' :: d) (by simp [hc]), splitOnNN_sep]
    | cons c2 t'' =>
      have h2 : ¬(c = '\n' ∧ c2 = '\n') := fun e => hc e.1
      show splitOnNN (c :: c2 :: (t'' ++ (nn ++ d))) = (c :: c2 :: t'') :: splitOnNN d
      rw [splitOnNN_cons_cons c c2 (t'' ++ (nn ++ d)) h2]
      have : splitOnNN ((c2 :: t'') ++ (nn ++ d)) = (c2 :: t'') :: splitOnNN d := ih ht'
      rw [List.cons_append] at this
      rw [this]

/-- C8: editing an RFI description round-trips through the title prefix: for
a title line `t` (no newline, hence no blank-line separator) and an edited
text `d`, the save handler stores `t ++ "\n\n" ++ d` with the title part
unchanged, and `cleanRfiDescription` recovers exactly `d.trim()`. -/
theorem rfiDescription_roundTrip (t b d : List Char) (ht : '\n' ∉ t) :
    handleSaveRfiDescription (t ++ nn ++ b) d = t ++ nn ++ d ∧
    cleanRfiDescription (t ++ nn ++ d) = jsTrim d := by
  have hsplit : splitOnNN (t ++ nn ++ d) = t :: splitOnNN d := by
    rw [List.append_assoc]
    exact splitOnNN_append t d ht
  have hsplitb : splitOnNN (t ++ nn ++ b) = t :: splitOnNN b := by
    rw [List.append_assoc]
    exact splitOnNN_append t b ht
  constructor
  · unfold handleSaveRfiDescription
    rw [hsplitb]
    rfl
  · have hne : t ++ nn ++ d ≠ [] := by simp [nn]
    have hlen : 1 < (splitOnNN (t ++ nn ++ d)).length := by
      rw [hsplit]
      cases hq : splitOnNN d with
      | nil => exact absurd hq (splitOnNN_ne_nil d)
      | cons p ps => simp
    unfold cleanRfiDescription
    rw [if_neg hne, if_pos hlen, hsplit]
    show jsTrim (List.intercalate nn (splitOnNN d)) = jsTrim d
    rw [intercalate_splitOnNN]

/-- C8 (witness): title `Page 3 - Column check`, old body `old`, edited text
` new text `. -/
theorem rfiDescription_roundTrip_witness :
    '\n' ∉ "Page 3 - Column check".toList ∧
    (handleSaveRfiDescription ("Page 3 - Column check".toList ++ nn ++ "old".toList)
        " new text ".toList
      = "Page 3 - Column check".toList ++ nn ++ " new text ".toList ∧
     cleanRfiDescription ("Page 3 - Column check".toList ++ nn ++ " new text ".toList)
      = jsTrim " new text ".toList) :=
  ⟨by decide,
   rfiDescription_roundTrip "Page 3 - Column check".toList "old".toList
     " new text ".toList (by decide)⟩

end ConstructionChatbot
